import Mathlib

/-!
# Verification of the tfutils optimizer wrappers and ConvNet recorder

This file gives a shallow embedding of the runtime behaviour of
`tfutils/optimizer.py` (the `ClipOptimizer` and `MinibatchOptimizer` wrappers)
and of the recording logic of `tfutils/model.py` (the `ConvNet` class), and
proves or refutes the specification claims about them.

Modelling conventions:
* A tensor is a flat list of rationals (`Tensor`); TensorFlow's elementwise
  `add` / `divide` / `clip_by_value` / `reduce_mean` become elementwise
  operations on lists.
* A `tf.Variable` is a record carrying its name and initial value; gradients
  that TensorFlow reports as `None` become `Option Tensor` with value `none`.
* Graph construction followed by a session run is collapsed into direct state
  transformers: one execution of the operations built by a method becomes one
  application of the corresponding Lean function to an explicit state.
  `tf.assign` mutates the state, `tf.add` does not.
* Python exceptions (AttributeError, ValueError, TypeError) become
  `Except.error` with the corresponding message.
-/

namespace TFUtils

instance {ε α : Type} [DecidableEq ε] [DecidableEq α] : DecidableEq (Except ε α) := fun x y =>
  match x, y with
  | .ok a, .ok b => if h : a = b then .isTrue (by rw [h]) else .isFalse (by simp [h])
  | .error a, .error b => if h : a = b then .isTrue (by rw [h]) else .isFalse (by simp [h])
  | .ok _, .error _ => .isFalse (by simp)
  | .error _, .ok _ => .isFalse (by simp)

/-- A tensor value: a flat list of rational components. -/
abbrev Tensor := List ℚ

/-- Elementwise `tf.add` of two tensors of the same shape
(`List.zipWith` truncates, but it is only ever applied at equal shapes). -/
def tensorAdd (a b : Tensor) : Tensor := List.zipWith (· + ·) a b

/-- Elementwise `tf.divide` of a tensor by the scalar `num_minibatches`. -/
def tensorDivNat (a : Tensor) (n : ℕ) : Tensor := a.map (fun x => x / (n : ℚ))

/-- `tf.zeros_like(var.initialized_value())`. -/
def zerosLike (t : Tensor) : Tensor := t.map (fun _ => 0)

/-- A `tf.Variable`: its name, a distinguishing id, and its initial value. -/
structure Variable where
  name : String
  id : ℕ
  init : Tensor
deriving DecidableEq

instance : Inhabited Variable := ⟨⟨"", 0, []⟩⟩

/-! ## MinibatchOptimizer: runtime state model

`MinibatchOptimizer.__init__` creates `self.mini_flag = tf.Variable(tf.zeros(1))`
and `self.grads_and_vars = None`; `self.var_list` is only created by
`compute_gradients`.  The state below carries the runtime value of the flag
(component 0 of the 1-element flag variable), the accumulator variables with
their model variables, and the optional `var_list`. -/

structure MinibatchState where
  miniFlag : ℚ
  gradsAndVars : Option (List (Tensor × Variable))
  varList : Option (List Variable)
deriving DecidableEq

namespace MinibatchOptimizer

/-- The state after `MinibatchOptimizer.__init__`: `mini_flag = [0.]`,
`grads_and_vars = None`, and no `var_list` attribute yet. -/
def initState : MinibatchState :=
  { miniFlag := 0, gradsAndVars := none, varList := none }

/-- `MinibatchOptimizer.compute_gradients`: delegates to the wrapped optimizer
(whose result is the argument `gvs`) and records
`self.var_list = [each_var for _, each_var in gvs]`. -/
def compute_gradients (st : MinibatchState) (gvs : List (Option Tensor × Variable)) :
    MinibatchState × List (Option Tensor × Variable) :=
  ({ st with varList := some (gvs.map Prod.snd) }, gvs)

/-- One execution of the operations built by
`MinibatchOptimizer.accumulate_gradients(minibatch_grads, num_minibatches)`.

* If `self.grads_and_vars is None` it is first populated with one accumulator
  variable per entry of `self.var_list`, initialised to `tf.zeros_like` of the
  model variable; reading `self.var_list` before any `compute_gradients` call
  raises `AttributeError`.
* Per variable whose minibatch gradient is present, `tf.cond` on
  `mini_flag[0] < 0.5` chooses `_set_op` (a `tf.assign` of
  `gradient / num_minibatches`, which writes the accumulator) or `_add_op`
  (a `tf.add` of the accumulator and `gradient / num_minibatches`, which only
  produces a value and writes nothing).  Entries whose gradient is `None`
  produce `None` and are filtered out of the returned list.
* Under control dependencies on all non-`None` update values, the flag is
  assigned `[1.]`; the method returns the flag and the list of produced
  values paired with their model variables. -/
def accumulate_gradients (st : MinibatchState)
    (minibatch_grads : List (Option Tensor × Variable))
    (num_minibatches : ℕ) :
    Except String (MinibatchState × List (Tensor × Variable)) := do
  let accs ← match st.gradsAndVars with
    | some a => pure a
    | none =>
      match st.varList with
      | some vs => pure (vs.map (fun v => (zerosLike v.init, v)))
      | none => throw "AttributeError: MinibatchOptimizer object has no attribute var_list"
  let zipped := accs.zip minibatch_grads
  let onlyGrads : List (Option Tensor) :=
    zipped.map (fun p =>
      match p.2.1 with
      | none => none
      | some g =>
        if st.miniFlag < (1/2 : ℚ) then some (tensorDivNat g num_minibatches)
        else some (tensorAdd p.1.1 (tensorDivNat g num_minibatches)))
  let newAccs : List (Tensor × Variable) :=
    (zipped.map (fun p =>
      match p.2.1 with
      | none => p.1
      | some g =>
        if st.miniFlag < (1/2 : ℚ) then (tensorDivNat g num_minibatches, p.1.2)
        else p.1)) ++ accs.drop zipped.length
  let grads : List (Tensor × Variable) :=
    (accs.zip onlyGrads).filterMap (fun p => p.2.map (fun t => (t, p.1.2)))
  pure ({ st with miniFlag := 1, gradsAndVars := some newAccs }, grads)

/-- Sequential execution of the accumulate step over a list of per-minibatch
gradient lists, returning the final state and the last returned gradients. -/
def accumRun (st : MinibatchState) (num_minibatches : ℕ)
    (gs : List (List (Option Tensor × Variable))) :
    Except String (MinibatchState × List (Tensor × Variable)) :=
  gs.foldlM (fun p g => accumulate_gradients p.1 g num_minibatches) (st, [])

/-- The state effect of one execution of the operations built by
`MinibatchOptimizer.apply_gradients`: the flag is assigned `[0.]` (the wrapped
optimizer's variable update then runs under control dependencies; the ordering
itself is proved on the graph model below). -/
def apply_gradients (st : MinibatchState) : MinibatchState :=
  { st with miniFlag := 0 }

end MinibatchOptimizer

/-! ## Graph-dependency model for the ordering guarantees of `apply_gradients`

TensorFlow sequencing is expressed through data inputs and
`tf.control_dependencies` edges.  A `Node` is an operation with the list of
operations that must complete before it runs; a session run is any linear
order of the node ids that respects every recorded edge (`schedOK`). -/

structure Node where
  id : ℕ
  deps : List ℕ
deriving DecidableEq

structure GraphState where
  nextId : ℕ
  nodes : List Node
  /-- The node whose output tensor `self.mini_flag` currently denotes. -/
  miniFlagNode : ℕ
deriving DecidableEq

/-- A graph with only the `mini_flag` variable node, as after
`MinibatchOptimizer.__init__`. -/
def GraphState.init : GraphState :=
  { nextId := 1, nodes := [⟨0, []⟩], miniFlagNode := 0 }

/-- Graph construction performed by one call of
`MinibatchOptimizer.accumulate_gradients`: one `tf.cond` update node per
present minibatch gradient (its predicate reads the current `mini_flag`
tensor), followed by the `tf.assign(mini_flag, [1.])` node, which carries a
control dependency on every update node and a data dependency on the tensor
it assigns.  `self.mini_flag` is rebound to the new assign node.  Returns the
new state, the update node ids, and the assign node id. -/
def accumulateBuild (g : GraphState) (numPresent : ℕ) :
    GraphState × List ℕ × ℕ :=
  let updates := (List.range numPresent).map (fun i => g.nextId + i)
  let updateNodes := updates.map (fun i => Node.mk i [g.miniFlagNode])
  let setId := g.nextId + numPresent
  ({ nextId := setId + 1,
     nodes := g.nodes ++ updateNodes ++ [⟨setId, updates ++ [g.miniFlagNode]⟩],
     miniFlagNode := setId },
   updates, setId)

/-- Graph construction performed by `MinibatchOptimizer.apply_gradients`: the
`tf.assign(mini_flag, [0.])` reset node takes the current `mini_flag` tensor
as its input, and the wrapped optimizer's apply node is created under
`tf.control_dependencies([reset] + UPDATE_OPS)`.  Returns the new state, the
reset node id, and the optimize node id. -/
def applyBuild (g : GraphState) (extraOps : List ℕ) :
    GraphState × ℕ × ℕ :=
  ({ nextId := g.nextId + 2,
     nodes := g.nodes ++ [⟨g.nextId, [g.miniFlagNode]⟩, ⟨g.nextId + 1, g.nextId :: extraOps⟩],
     miniFlagNode := g.nextId },
   g.nextId, g.nextId + 1)

/-- `order` is a legal execution of `nodes`: every node runs, and only after
all of its dependencies. -/
def schedOK (nodes : List Node) (order : List ℕ) : Prop :=
  (∀ n ∈ nodes, n.id ∈ order) ∧
  ∀ n ∈ nodes, ∀ d ∈ n.deps, List.indexOf d order < List.indexOf n.id order

instance (nodes : List Node) (order : List ℕ) : Decidable (schedOK nodes order) := by
  unfold schedOK; infer_instance

/-! ## MinibatchOptimizer.average_gradients -/

/-- Python `zip(*ls)`: the truncating transpose (`zip()` of no arguments is
empty, `zip` of several sequences stops at the shortest). -/
def zipStar {α : Type} : List (List α) → List (List α)
  | [] => []
  | [l] => l.map (fun x => [x])
  | l :: l₂ :: ls => List.zipWith (fun x xs => x :: xs) l (zipStar (l₂ :: ls))

/-- Collect a list of options, `none` if any entry is `none`. -/
def allSome {α : Type} : List (Option α) → Option (List α)
  | [] => some []
  | none :: _ => none
  | some x :: rest => (allSome rest).map (fun l => x :: l)

/-- `tf.concat` of the `tf.expand_dims`-ed gradients followed by
`tf.reduce_mean(axis=0)`: the elementwise mean.  `tf.concat` requires equal
shapes. -/
def stackMean : List Tensor → Except String Tensor
  | [] => throw "ValueError: cannot concat an empty list"
  | t :: ts =>
    if ts.all (fun u => u.length == t.length) then
      pure (tensorDivNat (ts.foldl tensorAdd t) (t :: ts).length)
    else throw "ValueError: shapes do not match"

/-- One iteration of the `average_gradients` loop: `grads_and_vars` is the
tuple, across devices, of the (gradient, variable) pairs at one position.
If the first device's gradient is present, every device's gradient is
`tf.expand_dims`-ed (raising on a `None` gradient), concatenated and
mean-reduced, and paired with the first device's variable; otherwise the
first device's pair is passed through unchanged. -/
def averageOne (grads_and_vars : List (Option Tensor × Variable)) :
    Except String (Option Tensor × Variable) :=
  match grads_and_vars with
  | [] => throw "IndexError: empty tuple"
  | (g0, v0) :: rest =>
    match g0 with
    | some t0 =>
      match allSome (rest.map Prod.fst) with
      | none => throw "ValueError: expand_dims of a None gradient"
      | some grads => do
        let m ← stackMean (t0 :: grads)
        pure (some m, v0)
    | none => pure (g0, v0)

/-- `MinibatchOptimizer.average_gradients` (a classmethod: it reads and
writes no optimizer state). -/
def average_gradients (tower_grads : List (List (Option Tensor × Variable))) :
    Except String (List (Option Tensor × Variable)) :=
  (zipStar tower_grads).mapM averageOne

/-- Spec-side elementwise mean of a family of equally-shaped tensors:
component `j` of the result is the arithmetic mean of the components `j`. -/
def tensorMeanSpec (ts : List Tensor) (shape : ℕ) : Tensor :=
  (List.range shape).map (fun j => (ts.map (fun t => t.getD j 0)).sum / (ts.length : ℚ))

/-- Spec-side description of one output position of `average_gradients`
(used to state the amended claim C4): mean of all devices' gradients paired
with the first device's variable when the first gradient is present, the
first device's pair unchanged otherwise. -/
def rowMeanSpec (row : List (Option Tensor × Variable)) : Option Tensor × Variable :=
  match row with
  | [] => (none, default)
  | (g0, v0) :: _ =>
    match g0 with
    | some t0 => (some (tensorMeanSpec (row.filterMap Prod.fst) t0.length), v0)
    | none => (none, v0)

/-- Rows on which `averageOne` succeeds: nonempty and, when the first
device's gradient is present, all gradients present with the same shape. -/
def goodRow (row : List (Option Tensor × Variable)) : Prop :=
  row ≠ [] ∧
  ∀ t0, row.head?.map Prod.fst = some (some t0) →
    ∀ q ∈ row, ∃ t, q.1 = some t ∧ t.length = t0.length

/-! ## ClipOptimizer -/

/-- The ambient collection `tf.GraphKeys.TRAINABLE_VARIABLES`. -/
structure TFEnv where
  trainableVars : List Variable

/-- Character-list test that `pat` begins `s` (Python `re.match` with a
literal pattern succeeds exactly when the pattern begins the string). -/
def beginsWith : List Char → List Char → Bool
  | [], _ => true
  | _ :: _, [] => false
  | a :: as, b :: bs => if a = b then beginsWith as bs else false

/-- `tf.get_collection(tf.GraphKeys.TRAINABLE_VARIABLES, scope=scope)`:
the trainable variables whose name begins with the scope name
(`get_collection` filters by `re.match(scope, item.name)`). -/
def getCollectionTrainable (env : TFEnv) (scope : String) : List Variable :=
  env.trainableVars.filter (fun v => beginsWith scope.data v.name.data)

/-- The `for scope_name in self.trainable_names` loop of
`ClipOptimizer.compute_gradients`: extends `train_vars` scope by scope and
raises `ValueError` at the first scope with no trainable variables. -/
def collectTrainVars (env : TFEnv) : List String → Except String (List Variable)
  | [] => pure []
  | scope :: rest =>
    let newVars := getCollectionTrainable env scope
    if newVars.isEmpty then
      throw ("The scope name, " ++ scope ++
        ", you specified does not contain any trainable variables.")
    else do
      let more ← collectTrainVars env rest
      pure (newVars ++ more)

/-- Elementwise `tf.clip_by_value(t, lo, hi)`. -/
def clip_by_value (t : Tensor) (lo hi : ℚ) : Tensor :=
  t.map (fun x => max lo (min x hi))

namespace ClipOptimizer

/-- `ClipOptimizer.compute_gradients`.  The wrapped optimizer's
`compute_gradients(loss, var_list=train_vars)` is abstracted as the function
`innerCompute` from the optional variable restriction to the returned
(gradient, variable) list.  When `trainable_names` is set, the trainable
variables of each named scope are collected (raising if a scope is empty)
and passed as the restriction; when `self.clip` is set, `None` gradients are
dropped and the rest are clipped to `[-1, 1]`. -/
def compute_gradients (trainable_names : Option (List String)) (clip : Bool)
    (env : TFEnv)
    (innerCompute : Option (List Variable) → List (Option Tensor × Variable)) :
    Except String (List (Option Tensor × Variable)) := do
  let train_vars : Option (List Variable) ←
    match trainable_names with
    | none => pure none
    | some names => do pure (some (← collectTrainVars env names))
  let gvs := innerCompute train_vars
  if clip then
    pure (gvs.filterMap (fun gv =>
      gv.1.map (fun g => (some (clip_by_value g (-1) 1), gv.2))))
  else
    pure gvs

end ClipOptimizer

/-! ## ConvNet: the layer-specification recorder

Argument values are modelled as integers, integer lists, or opaque strings
(`Val`); Python dicts become association lists with dict update semantics
(`assocSet` replaces in place, appends new keys at the end).  Positional
argument conversion is not modelled: `recordCall` receives the call's
keyword arguments directly, with the `layer` keyword already popped into a
separate parameter. -/

inductive Val where
  | int : ℤ → Val
  | intList : List ℤ → Val
  | str : String → Val
deriving DecidableEq

/-- A Python dict with string keys, as an insertion-ordered association
list. -/
abbrev Kwargs := List (String × Val)

/-- Dict key membership. -/
def assocMem {κ β : Type} [DecidableEq κ] (m : List (κ × β)) (k : κ) : Bool :=
  m.any (fun p => p.1 = k)

/-- Dict assignment `m[k] = v`: replaces the value in place if the key
exists, appends the new key otherwise. -/
def assocSet {κ β : Type} [DecidableEq κ] (m : List (κ × β)) (k : κ) (v : β) :
    List (κ × β) :=
  if assocMem m k then m.map (fun p => if p.1 = k then (k, v) else p)
  else m ++ [(k, v)]

/-- Dict read `m.get(k)`. -/
def assocGet {κ β : Type} [DecidableEq κ] (m : List (κ × β)) (k : κ) : Option β :=
  (m.find? (fun p => p.1 = k)).map Prod.snd

/-- Python `dict.update`: assign every pair of `upd` in order. -/
def assocUpdate {κ β : Type} [DecidableEq κ] (m upd : List (κ × β)) : List (κ × β) :=
  upd.foldl (fun acc p => assocSet acc p.1 p.2) m

/-- `ConvNet._val2list`: a bare int `v` becomes `[1, v, v, 1]`, a 2-element
list `[a, b]` becomes `[1, a, b, 1]`, anything else is returned unchanged.
(Values reaching it in the repository are ints or int lists; the opaque
string case is returned unchanged.) -/
def _val2list : Val → Val
  | .int v => .intList [1, v, v, 1]
  | .intList l =>
    if l.length = 2 then .intList [1, l.getD 0 0, l.getD 1 0, 1] else .intList l
  | .str s => .str s

/-- The pool-style operations whose `ksize` is normalized. -/
def specOps : List String := ["avg_pool", "max_pool", "max_pool_with_argmax"]

/-- The name `fname + '_{}'.format(i)` tried by the auto-namer. -/
def candName (fname : String) (i : ℕ) : String := fname ++ "_" ++ Nat.repr i

/-- The `while fname + '_{}'.format(i) in self.params[layer]: i += 1` loop.
The Python loop terminates because the key set is finite; here the fuel
`existing.length + 1` always suffices to reach a free suffix. -/
def firstFreeAux (existing : List String) (fname : String) : ℕ → ℕ → ℕ
  | 0, i => i
  | fuel + 1, i =>
    if candName fname i ∈ existing then firstFreeAux existing fname fuel (i + 1)
    else i

/-- The default-name assignment of `ConvNet._func_wrapper`: the function's
own name if it is not yet a key of the layer's params, otherwise the first
free `<name>_<i>` with `i` counted up from 1. -/
def autoName (existing : List String) (fname : String) : String :=
  if fname ∈ existing then
    candName fname (firstFreeAux existing fname (existing.length + 1) 1)
  else fname

/-- The recording state of a `ConvNet` instance: the `_defaults` mapping,
the current `_layer`, and the ordered `params` log
(layer key, possibly `None` → ordered map of entry name → kwargs). -/
structure ConvNet where
  _defaults : List (String × Kwargs)
  _layer : Option String
  params : List (Option String × List (String × Kwargs))
deriving DecidableEq

/-- `ConvNet.__init__(defaults=d)`: `self._defaults = d if d is not None
else {}`, no current layer, empty params. -/
def ConvNet.init (defaults : Option (List (String × Kwargs))) : ConvNet :=
  { _defaults := defaults.getD [], _layer := none, params := [] }

/-- One recorded call through `ConvNet._func_wrapper` (keyword arguments
only; `layerArg` is the popped `layer` keyword, if passed):

1. `kwargs['func_name'] = func.__name__`;
2. `layer = kwargs.pop('layer', self._layer)`, and `params[layer]` is
   created empty if absent;
3. `kwargs.update(self._defaults[func_name])` when defaults exist for the
   function;
4. if `name` is not among the kwargs, the auto-generated per-layer name is
   assigned;
5. `ksize` is normalized through `_val2list` for the operations in
   `specOps` only; `strides` is normalized for every operation;
6. the kwargs are stored at `params[layer][kwargs['name']]`. -/
def ConvNet.recordCall (net : ConvNet) (funcName : String)
    (layerArg : Option String) (kwargs0 : Kwargs) : ConvNet :=
  let kwargs1 := assocSet kwargs0 "func_name" (.str funcName)
  let layer : Option String := layerArg.orElse (fun _ => net._layer)
  let params := if assocMem net.params layer then net.params
    else assocSet net.params layer []
  let layerMap := (assocGet params layer).getD []
  let kwargs2 := match assocGet net._defaults funcName with
    | some d => assocUpdate kwargs1 d
    | none => kwargs1
  let kwargs3 := if assocMem kwargs2 "name" then kwargs2
    else assocSet kwargs2 "name" (.str (autoName (layerMap.map Prod.fst) funcName))
  let kwargs4 := if funcName ∈ specOps then
      match assocGet kwargs3 "ksize" with
      | some v => assocSet kwargs3 "ksize" (_val2list v)
      | none => kwargs3
    else kwargs3
  let kwargs5 := match assocGet kwargs4 "strides" with
    | some v => assocSet kwargs4 "strides" (_val2list v)
    | none => kwargs4
  let entryName := match assocGet kwargs5 "name" with
    | some (.str s) => s
    | _ => ""
  { net with params := assocSet params layer (assocSet layerMap entryName kwargs5) }

/-- Entering `ConvNet.arg_scope(defaults)`: `self._defaults = defaults`. -/
def ConvNet.argScopeEnter (net : ConvNet) (defaults : List (String × Kwargs)) :
    ConvNet :=
  { net with _defaults := defaults }

/-- Exiting `ConvNet.arg_scope`: the line after the `yield` runs
`self._defaults = {}` unconditionally. -/
def ConvNet.argScopeExit (net : ConvNet) : ConvNet :=
  { net with _defaults := [] }

/-- The keys recorded so far in a layer, in insertion order. -/
def ConvNet.layerKeys (net : ConvNet) (layer : Option String) : List String :=
  ((assocGet net.params layer).getD []).map Prod.fst

/-- The kwargs stored for one recorded entry. -/
def ConvNet.storedKwargs (net : ConvNet) (layer : Option String) (name : String) :
    Kwargs :=
  (assocGet ((assocGet net.params layer).getD []) name).getD []

/-- `k` successive recorded calls of the same operation with no explicit
name and no explicit layer. -/
def ConvNet.recordUnnamed (net : ConvNet) (fname : String) : ℕ → ConvNet
  | 0 => net
  | k + 1 => ConvNet.recordUnnamed (net.recordCall fname none []) fname k

/-- Decimal value of a digit string, starting from accumulator `a`; the left
inverse used to prove the decimal rendering injective. -/
def valFrom (a : ℕ) (l : List Char) : ℕ :=
  l.foldl (fun acc c => 10 * acc + (c.toNat - 48)) a

/-- Spec-side expected sequence of auto-assigned names: the base name for
the first unnamed recording, then `<op>_1`, `<op>_2`, ... -/
def claimedAutoNames (fname : String) (k : ℕ) : List String :=
  (List.range k).map (fun j => if j = 0 then fname else candName fname j)

end TFUtils

namespace TFUtils

/-! ## Theorems for the claims -/

/-- C1: evaluating the accumulate step at the claim's own scenario (one
scalar variable, `num_minibatches = 4`, gradients 1, 2, 3, 4 over four
sequential minibatches, flag initially 0) leaves the accumulator storage at
`[1/4]` — only the first minibatch's `tf.assign` ever writes it — and makes
the last call return `[5/4]`; the storage does not equal the claimed mean
`[5/2]`.  The subsequent-minibatch branch `_add_op` is a `tf.add`, which
produces a value but never stores it. -/
theorem accumulate_four_minibatches_storage_not_mean :
    MinibatchOptimizer.accumRun
      ((MinibatchOptimizer.compute_gradients MinibatchOptimizer.initState
        [(some [0], ⟨"w", 0, [0]⟩)]).1) 4
      [[(some [1], ⟨"w", 0, [0]⟩)], [(some [2], ⟨"w", 0, [0]⟩)],
       [(some [3], ⟨"w", 0, [0]⟩)], [(some [4], ⟨"w", 0, [0]⟩)]] =
    .ok ({ miniFlag := 1,
           gradsAndVars := some [([1/4], ⟨"w", 0, [0]⟩)],
           varList := some [⟨"w", 0, [0]⟩] },
         [([5/4], ⟨"w", 0, [0]⟩)]) ∧ ([1/4] : Tensor) ≠ [5/2] := by
  constructor
  · norm_num [MinibatchOptimizer.accumRun, List.foldlM,
      MinibatchOptimizer.accumulate_gradients, MinibatchOptimizer.compute_gradients,
      MinibatchOptimizer.initState, tensorDivNat, tensorAdd, zerosLike,
      bind, Except.bind, pure, Except.pure, List.filterMap, Option.map]
  · intro h
    have := List.head_eq_of_cons_eq h
    norm_num at this

/-- C2: on a subsequent minibatch (flag = 1) with a present gradient, the
accumulator storage is not incremented: with storage `[10]`, gradient `[2]`
and `num_minibatches = 1` the returned accumulated value is `[12]` but the
storage after the call is still `[10]`.  Only the first-minibatch branch
(`tf.assign`) writes; the subsequent branch (`tf.add`) does not. -/
theorem accumulate_subsequent_branch_does_not_write_storage :
    MinibatchOptimizer.accumulate_gradients
      { miniFlag := 1, gradsAndVars := some [([10], ⟨"w", 0, [0]⟩)],
        varList := some [⟨"w", 0, [0]⟩] }
      [(some [2], ⟨"w", 0, [0]⟩)] 1 =
    .ok ({ miniFlag := 1, gradsAndVars := some [([10], ⟨"w", 0, [0]⟩)],
           varList := some [⟨"w", 0, [0]⟩] },
         [([12], ⟨"w", 0, [0]⟩)]) ∧ ([10] : Tensor) ≠ [12] := by
  constructor
  · norm_num [MinibatchOptimizer.accumulate_gradients, tensorDivNat, tensorAdd,
      bind, Except.bind, pure, Except.pure, List.filterMap, Option.map]
  · intro h
    have := List.head_eq_of_cons_eq h
    norm_num at this

/-- C9: calling `accumulate_gradients` on a freshly constructed
`MinibatchOptimizer`, before any `compute_gradients` call has established
the variable list, always fails: `self.grads_and_vars` is `None` and reading
`self.var_list` raises, for every gradient argument and minibatch count. -/
theorem accumulate_before_compute_gradients_errors
    (minibatch_grads : List (Option Tensor × Variable)) (num_minibatches : ℕ) :
    MinibatchOptimizer.accumulate_gradients MinibatchOptimizer.initState
      minibatch_grads num_minibatches =
    .error "AttributeError: MinibatchOptimizer object has no attribute var_list" := rfl

/-- C10: exiting `arg_scope` always leaves `self._defaults` empty — the
constructor-supplied (or enclosing-scope) defaults are discarded, not
restored — so every recording made after the exit behaves exactly like a
recording on a `ConvNet` constructed with no defaults at all. -/
theorem arg_scope_exit_discards_defaults
    (ctorDefaults scopeDefaults : List (String × Kwargs)) (lay : Option String)
    (ps : List (Option String × List (String × Kwargs)))
    (funcName : String) (layerArg : Option String) (kwargs0 : Kwargs) :
    (ConvNet.argScopeExit
        (ConvNet.argScopeEnter
          { _defaults := ctorDefaults, _layer := lay, params := ps } scopeDefaults))._defaults
      = [] ∧
    (ConvNet.argScopeExit
        (ConvNet.argScopeEnter
          { _defaults := ctorDefaults, _layer := lay, params := ps } scopeDefaults)).recordCall
        funcName layerArg kwargs0
      = ConvNet.recordCall { _defaults := [], _layer := lay, params := ps }
          funcName layerArg kwargs0 ∧
    (ConvNet.init (some ctorDefaults))._defaults = ctorDefaults :=
  ⟨rfl, rfl, rfl⟩

/-- C3: in the dependency graph built by a call of `accumulate_gradients`
followed by `apply_gradients`, every legal execution order runs each
accumulation update before the flag-set node, the flag-set node before the
flag reset (the reset's `tf.assign` takes the flag tensor produced by the
set as input), the reset before the wrapped optimizer's apply node, and
every registered `UPDATE_OPS` side effect before the apply node: last
accumulation, then flag reset, then optimizer variable update. -/
theorem apply_gradients_ordering
    (g0 : GraphState) (numPresent : ℕ) (extraOps : List ℕ) (order : List ℕ)
    (h : schedOK (applyBuild (accumulateBuild g0 numPresent).1 extraOps).1.nodes order) :
    (∀ u ∈ (accumulateBuild g0 numPresent).2.1,
        List.indexOf u order <
          List.indexOf (applyBuild (accumulateBuild g0 numPresent).1 extraOps).2.1 order) ∧
    List.indexOf (accumulateBuild g0 numPresent).2.2 order <
      List.indexOf (applyBuild (accumulateBuild g0 numPresent).1 extraOps).2.1 order ∧
    List.indexOf (applyBuild (accumulateBuild g0 numPresent).1 extraOps).2.1 order <
      List.indexOf (applyBuild (accumulateBuild g0 numPresent).1 extraOps).2.2 order ∧
    ∀ e ∈ extraOps,
      List.indexOf e order <
        List.indexOf (applyBuild (accumulateBuild g0 numPresent).1 extraOps).2.2 order := by
  obtain ⟨-, hdeps⟩ := h
  simp only [accumulateBuild, applyBuild] at hdeps ⊢
  have hset := hdeps ⟨g0.nextId + numPresent,
      (List.range numPresent).map (fun i => g0.nextId + i) ++ [g0.miniFlagNode]⟩
    (by simp)
  have hreset := hdeps ⟨(g0.nextId + numPresent) + 1, [g0.nextId + numPresent]⟩ (by simp)
  have hopt := hdeps ⟨(g0.nextId + numPresent) + 1 + 1,
      ((g0.nextId + numPresent) + 1) :: extraOps⟩ (by simp)
  have hsr : List.indexOf (g0.nextId + numPresent) order <
      List.indexOf ((g0.nextId + numPresent) + 1) order := by
    exact hreset _ (by simp)
  refine ⟨?_, hsr, ?_, ?_⟩
  · intro u hu
    exact lt_trans (hset u (by simp [hu])) hsr
  · exact hopt _ (by simp)
  · intro e he
    exact hopt _ (by simp [he])

/-- Witness for `apply_gradients_ordering`: the five-node graph of one
single-gradient accumulation followed by an apply, scheduled in id order. -/
theorem apply_gradients_ordering_witness :
    List.indexOf (accumulateBuild GraphState.init 1).2.2 [0, 1, 2, 3, 4] <
      List.indexOf (applyBuild (accumulateBuild GraphState.init 1).1 []).2.1
        [0, 1, 2, 3, 4] ∧
    List.indexOf (applyBuild (accumulateBuild GraphState.init 1).1 []).2.1
        [0, 1, 2, 3, 4] <
      List.indexOf (applyBuild (accumulateBuild GraphState.init 1).1 []).2.2
        [0, 1, 2, 3, 4] := by
  have h := apply_gradients_ordering GraphState.init 1 [] [0, 1, 2, 3, 4] (by decide)
  exact ⟨h.2.1, h.2.2.1⟩

/-- C4 (counterexample): with two devices where the first device's gradient
for the only variable is `None` and the second device's is present,
`average_gradients` returns the first device's pair `(None, a)` unchanged —
not the other device's pair `(some [5], b)` as the claim states. -/
theorem average_gradients_first_none_passthrough :
    average_gradients [[(none, ⟨"a", 0, [0]⟩)], [(some [5], ⟨"b", 1, [0]⟩)]] =
      .ok [(none, ⟨"a", 0, [0]⟩)] ∧
    ((none, ⟨"a", 0, [0]⟩) : Option Tensor × Variable) ≠ (some [5], ⟨"b", 1, [0]⟩) := by
  refine ⟨rfl, ?_⟩
  intro h
  exact Option.noConfusion (congrArg Prod.fst h)

lemma filterMap_clip_length (gvs : List (Option Tensor × Variable)) :
    (gvs.filterMap (fun gv =>
      gv.1.map (fun g => ((some (clip_by_value g (-1) 1) : Option Tensor), gv.2)))).length
      = (gvs.filter (fun gv => gv.1.isSome)).length := by
  induction gvs with
  | nil => rfl
  | cons gv rest ih =>
    cases h : gv.1 <;> simp [List.filterMap_cons, List.filter_cons, h, ih]

/-- C5: with clipping enabled (and no trainable-names restriction), whatever
(gradient, variable) list the wrapped optimizer returns, `compute_gradients`
returns exactly the defined-gradient entries, each clipped elementwise to
`[-1, 1]`: every returned gradient is present with all components in
`[-1, 1]`; `None`-gradient pairs are dropped, not zeroed (the output has
exactly one entry per defined input gradient); and the clip clamps
out-of-range components to the nearest bound while leaving in-range
components unchanged. -/
theorem clip_compute_gradients_clips (env : TFEnv)
    (gvs : List (Option Tensor × Variable)) :
    ClipOptimizer.compute_gradients none true env (fun _ => gvs) =
      .ok (gvs.filterMap (fun gv =>
        gv.1.map (fun g => ((some (clip_by_value g (-1) 1) : Option Tensor), gv.2)))) ∧
    (∀ p ∈ gvs.filterMap (fun gv =>
        gv.1.map (fun g => ((some (clip_by_value g (-1) 1) : Option Tensor), gv.2))),
      ∃ t, p.1 = some t ∧ ∀ x ∈ t, -1 ≤ x ∧ x ≤ 1) ∧
    (gvs.filterMap (fun gv =>
        gv.1.map (fun g => ((some (clip_by_value g (-1) 1) : Option Tensor), gv.2)))).length
      = (gvs.filter (fun gv => gv.1.isSome)).length ∧
    (∀ x : ℚ, x < -1 → clip_by_value [x] (-1) 1 = [-1]) ∧
    (∀ x : ℚ, 1 < x → clip_by_value [x] (-1) 1 = [1]) ∧
    (∀ x : ℚ, -1 ≤ x → x ≤ 1 → clip_by_value [x] (-1) 1 = [x]) := by
  refine ⟨rfl, ?_, filterMap_clip_length gvs, ?_, ?_, ?_⟩
  · intro p hp
    obtain ⟨gv, -, hmap⟩ := List.mem_filterMap.mp hp
    obtain ⟨g, -, hg⟩ := Option.map_eq_some'.mp hmap
    refine ⟨clip_by_value g (-1) 1, by rw [← hg], ?_⟩
    intro x hx
    obtain ⟨y, -, hy⟩ := List.mem_map.mp hx
    constructor
    · rw [← hy]; exact le_max_left _ _
    · rw [← hy]
      exact max_le (by norm_num) (min_le_right _ _)
  · intro x hx
    have h1 : min x 1 = x := min_eq_left (le_of_lt (lt_trans hx (by norm_num)))
    have h2 : max (-1 : ℚ) x = -1 := max_eq_left (le_of_lt hx)
    simp [clip_by_value, h1, h2]
  · intro x hx
    have h1 : min x 1 = 1 := min_eq_right (le_of_lt hx)
    have h2 : max (-1 : ℚ) 1 = 1 := max_eq_right (by norm_num)
    simp [clip_by_value, h1, h2]
  · intro x hx1 hx2
    have h1 : min x 1 = x := min_eq_left hx2
    have h2 : max (-1 : ℚ) x = x := max_eq_right hx1
    simp [clip_by_value, h1, h2]

/-- Witness for `clip_compute_gradients_clips`: gradients `[2, -3, 1/2]` are
clipped to `[1, -1, 1/2]` and the `None`-gradient pair is dropped. -/
theorem clip_compute_gradients_clips_witness :
    ClipOptimizer.compute_gradients none true ⟨[]⟩
      (fun _ => [(some [2, -3, 1/2], ⟨"w", 0, [0]⟩), (none, ⟨"b", 1, [0]⟩)]) =
      .ok [(some [1, -1, 1/2], ⟨"w", 0, [0]⟩)] ∧
    clip_by_value [(2 : ℚ)] (-1) 1 = [1] := by
  have h := clip_compute_gradients_clips ⟨[]⟩
    [(some [2, -3, 1/2], ⟨"w", 0, [0]⟩), (none, ⟨"b", 1, [0]⟩)]
  constructor
  · rw [h.1]
    norm_num [clip_by_value, List.filterMap]
  · exact h.2.2.2.2.1 2 (by norm_num)

lemma collectTrainVars_error (env : TFEnv) (s : String) (post : List String)
    (hs : getCollectionTrainable env s = []) :
    ∀ pre : List String, (∀ s' ∈ pre, getCollectionTrainable env s' ≠ []) →
    collectTrainVars env (pre ++ s :: post) =
      .error ("The scope name, " ++ s ++
        ", you specified does not contain any trainable variables.") := by
  intro pre
  induction pre with
  | nil =>
    intro _
    simp only [List.nil_append, collectTrainVars, hs, List.isEmpty_nil, if_true]
    rfl
  | cons s' rest ih =>
    intro hpre
    have hne : ¬(getCollectionTrainable env s').isEmpty := by
      simpa [List.isEmpty_iff] using hpre s' (by simp)
    simp only [List.cons_append, collectTrainVars, hne, if_false, Bool.false_eq_true,
      List.append_eq]
    rw [ih (fun x hx => hpre x (by simp [hx]))]
    rfl

lemma collectTrainVars_ok (env : TFEnv) :
    ∀ names : List String, (∀ s ∈ names, getCollectionTrainable env s ≠ []) →
    collectTrainVars env names =
      .ok (names.flatMap (fun s => getCollectionTrainable env s)) := by
  intro names
  induction names with
  | nil => intro _; rfl
  | cons s rest ih =>
    intro h
    have hne : ¬(getCollectionTrainable env s).isEmpty := by
      simpa [List.isEmpty_iff] using h s (by simp)
    simp only [collectTrainVars, hne, if_false, Bool.false_eq_true, List.append_eq]
    rw [ih (fun x hx => h x (by simp [hx]))]
    simp [List.flatMap_cons, bind, Except.bind, pure, Except.pure]

/-- C6: with a trainable-names allow-list, `compute_gradients` raises a
`ValueError` naming the first requested scope that yields zero trainable
variables; when every requested scope yields at least one trainable
variable, the wrapped optimizer is invoked with exactly the variables
collected from the listed scopes, in order. -/
theorem compute_gradients_trainable_names (env : TFEnv) (clip : Bool)
    (inner : Option (List Variable) → List (Option Tensor × Variable)) :
    (∀ (pre : List String) (s : String) (post : List String),
      (∀ s' ∈ pre, getCollectionTrainable env s' ≠ []) →
      getCollectionTrainable env s = [] →
      ClipOptimizer.compute_gradients (some (pre ++ s :: post)) clip env inner =
        .error ("The scope name, " ++ s ++
          ", you specified does not contain any trainable variables.")) ∧
    (∀ names : List String,
      (∀ s ∈ names, getCollectionTrainable env s ≠ []) →
      ClipOptimizer.compute_gradients (some names) false env inner =
        .ok (inner (some (names.flatMap (fun s => getCollectionTrainable env s))))) := by
  constructor
  · intro pre s post hpre hs
    have hc := collectTrainVars_error env s post hs pre hpre
    simp [ClipOptimizer.compute_gradients, hc, bind, Except.bind]
  · intro names h
    have hc := collectTrainVars_ok env names h
    simp [ClipOptimizer.compute_gradients, hc, bind, Except.bind, pure, Except.pure]

/-- Witness for `compute_gradients_trainable_names`: the scope `z` matches
no trainable variable and is named in the error; the scope `w` matches the
single variable `w1`, which is exactly what the wrapped optimizer is
restricted to. -/
theorem compute_gradients_trainable_names_witness :
    ClipOptimizer.compute_gradients (some ["z"]) true ⟨[⟨"w1", 0, [0]⟩]⟩
        (fun o => (o.getD []).map (fun v => (none, v))) =
      .error "The scope name, z, you specified does not contain any trainable variables." ∧
    ClipOptimizer.compute_gradients (some ["w"]) false ⟨[⟨"w1", 0, [0]⟩]⟩
        (fun o => (o.getD []).map (fun v => (none, v))) =
      .ok [(none, ⟨"w1", 0, [0]⟩)] := by
  constructor
  · have h := (compute_gradients_trainable_names ⟨[⟨"w1", 0, [0]⟩]⟩ true
      (fun o => (o.getD []).map (fun v => ((none : Option Tensor), v)))).1 [] "z" []
      (by intro s hs; simp at hs) (by decide)
    simpa using h
  · have h := (compute_gradients_trainable_names ⟨[⟨"w1", 0, [0]⟩]⟩ false
      (fun o => (o.getD []).map (fun v => ((none : Option Tensor), v)))).2 ["w"]
      (by intro s hs; rw [List.mem_singleton] at hs; subst hs; decide)
    rw [h]
    rfl

lemma tensorAdd_length (a b : Tensor) : (tensorAdd a b).length = min a.length b.length := by
  simp [tensorAdd]

lemma tensorAdd_getD (a b : Tensor) (j : ℕ) (ha : j < a.length) (hb : j < b.length) :
    (tensorAdd a b).getD j 0 = a.getD j 0 + b.getD j 0 := by
  have hj : j < (tensorAdd a b).length := by
    rw [tensorAdd_length]; omega
  rw [List.getD_eq_getElem _ _ hj, List.getD_eq_getElem _ _ ha, List.getD_eq_getElem _ _ hb]
  simp [tensorAdd]

lemma foldl_tensorAdd :
    ∀ (ts : List Tensor) (a : Tensor), (∀ u ∈ ts, u.length = a.length) →
      (ts.foldl tensorAdd a).length = a.length ∧
      ∀ j, j < a.length →
        (ts.foldl tensorAdd a).getD j 0
          = a.getD j 0 + (ts.map (fun u => u.getD j 0)).sum := by
  intro ts
  induction ts with
  | nil => intro a _; simp
  | cons u rest ih =>
    intro a hlen
    have hu : u.length = a.length := hlen u (by simp)
    have hadd_len : (tensorAdd a u).length = a.length := by
      rw [tensorAdd_length, hu]; exact min_self _
    have hrest : ∀ w ∈ rest, w.length = (tensorAdd a u).length := by
      intro w hw; rw [hadd_len]; exact hlen w (by simp [hw])
    obtain ⟨ihlen, ihget⟩ := ih (tensorAdd a u) hrest
    rw [List.foldl_cons]
    constructor
    · rw [ihlen, hadd_len]
    · intro j hj
      have hj' : j < (tensorAdd a u).length := by rw [hadd_len]; exact hj
      rw [ihget j hj']
      rw [tensorAdd_getD a u j hj (by rw [hu]; exact hj)]
      simp [add_assoc]

lemma stackMean_eq (t0 : Tensor) (ts : List Tensor)
    (h : ∀ u ∈ ts, u.length = t0.length) :
    stackMean (t0 :: ts) = .ok (tensorMeanSpec (t0 :: ts) t0.length) := by
  have hall : ts.all (fun u => u.length == t0.length) = true := by
    rw [List.all_eq_true]
    intro u hu
    exact beq_iff_eq.mpr (h u hu)
  simp only [stackMean]
  rw [if_pos hall]
  obtain ⟨hlen, hget⟩ := foldl_tensorAdd ts t0 h
  congr 1
  apply List.ext_getElem
  · simp [tensorDivNat, tensorMeanSpec, hlen]
  · intro j h1 h2
    have hjX : j < (ts.foldl tensorAdd t0).length := by
      simpa [tensorDivNat] using h1
    have hjt0 : j < t0.length := by rw [← hlen]; exact hjX
    simp only [tensorDivNat, tensorMeanSpec, List.getElem_map, List.getElem_range]
    rw [← List.getD_eq_getElem _ 0 hjX, hget j hjt0]
    simp [List.map_cons, List.sum_cons]

lemma allSome_of_forall (L : ℕ) :
    ∀ l : List (Option Tensor × Variable),
      (∀ q ∈ l, ∃ t, q.1 = some t ∧ t.length = L) →
      allSome (l.map Prod.fst) = some (l.filterMap Prod.fst) ∧
      ∀ t ∈ l.filterMap Prod.fst, t.length = L := by
  intro l
  induction l with
  | nil => intro _; exact ⟨rfl, by simp⟩
  | cons q rest ih =>
    intro h
    obtain ⟨t, ht, htL⟩ := h q (by simp)
    obtain ⟨ih1, ih2⟩ := ih (fun w hw => h w (by simp [hw]))
    constructor
    · rw [List.map_cons, ht]
      simp [allSome, ih1, List.filterMap_cons, ht]
    · intro u hu
      rw [List.filterMap_cons, ht] at hu
      rcases List.mem_cons.mp hu with h1 | h1
      · rw [h1]; exact htL
      · exact ih2 u h1

lemma averageOne_good (row : List (Option Tensor × Variable)) (h : goodRow row) :
    averageOne row = .ok (rowMeanSpec row) := by
  obtain ⟨hne, hall⟩ := h
  match row, hne with
  | (g0, v0) :: rest, _ =>
    cases hg0 : g0 with
    | none => simp [averageOne, rowMeanSpec, pure, Except.pure]
    | some t0 =>
      have hq : ∀ q ∈ (g0, v0) :: rest, ∃ t, q.1 = some t ∧ t.length = t0.length := by
        apply hall
        simp [hg0]
      have hqr : ∀ q ∈ rest, ∃ t, q.1 = some t ∧ t.length = t0.length :=
        fun q hq2 => hq q (by simp [hq2])
      obtain ⟨hsomer, hlenr⟩ := allSome_of_forall t0.length rest hqr
      simp only [averageOne, rowMeanSpec, hsomer]
      rw [stackMean_eq t0 (rest.filterMap Prod.fst) hlenr]
      simp [List.filterMap_cons, bind, Except.bind, pure, Except.pure]

lemma mapM_averageOne :
    ∀ rs : List (List (Option Tensor × Variable)),
      (∀ row ∈ rs, goodRow row) →
      rs.mapM averageOne = .ok (rs.map rowMeanSpec) := by
  intro rs
  induction rs with
  | nil => intro _; rfl
  | cons r rest ih =>
    intro h
    rw [List.mapM_cons, averageOne_good r (h r (by simp)),
      ih (fun w hw => h w (by simp [hw]))]
    rfl

lemma zipStar_length {α : Type} (n : ℕ) :
    ∀ ts : List (List α), ts ≠ [] → (∀ l ∈ ts, l.length = n) →
      (zipStar ts).length = n := by
  intro ts
  induction ts with
  | nil => simp
  | cons l rest ih =>
    intro _ hlen
    cases rest with
    | nil =>
      have hl : l.length = n := hlen l (by simp)
      simp [zipStar, hl]
    | cons l2 rest2 =>
      have hl : l.length = n := hlen l (by simp)
      have hz : (zipStar (l2 :: rest2)).length = n :=
        ih (by simp) (fun w hw => hlen w (by simp [hw]))
      rw [zipStar, List.length_zipWith, hl, hz]
      exact min_self n

lemma zipStar_getD {α : Type} [Inhabited α] (n : ℕ) :
    ∀ ts : List (List α), ts ≠ [] → (∀ l ∈ ts, l.length = n) →
      ∀ i, i < n → (zipStar ts).getD i [] = ts.map (fun l => l.getD i default) := by
  intro ts
  induction ts with
  | nil => simp
  | cons l rest ih =>
    intro _ hlen i hi
    cases rest with
    | nil =>
      have hl : l.length = n := hlen l (by simp)
      have hi' : i < l.length := by omega
      rw [zipStar]
      rw [List.getD_eq_getElem _ _ (by simpa using hi'), List.getElem_map]
      rw [List.map_singleton, List.getD_eq_getElem _ _ hi']
    | cons l2 rest2 =>
      have hl : l.length = n := hlen l (by simp)
      have hz : (zipStar (l2 :: rest2)).length = n :=
        zipStar_length n _ (by simp) (fun w hw => hlen w (by simp [hw]))
      have hilen : i < (List.zipWith (fun x xs => x :: xs) l (zipStar (l2 :: rest2))).length := by
        rw [List.length_zipWith, hl, hz]
        omega
      rw [zipStar, List.getD_eq_getElem _ _ hilen, List.getElem_zipWith, List.map_cons]
      congr 1
      · rw [List.getD_eq_getElem _ _ (by omega : i < l.length)]
      · have hrec := ih (by simp) (fun w hw => hlen w (by simp [hw])) i hi
        rw [← hrec, List.getD_eq_getElem _ _ (by rw [hz]; exact hi)]

/-- C4 (amended): for a nonempty family of equal-length per-device
(gradient, variable) lists in the same variable order, whose positions are
each nonempty and, when the first device's gradient is present, have all
devices' gradients present with equal shape, `average_gradients` returns the
per-position results in order: the elementwise arithmetic mean of all
devices' gradients paired with the first device's variable where the first
device's gradient is present, and the first device's `(None, variable)` pair
passed through unchanged where it is absent.  The output has one entry per
variable position, and position `i` of the transposed input is exactly the
list of the devices' entries at index `i`. -/
theorem average_gradients_amended (tower_grads : List (List (Option Tensor × Variable)))
    (n : ℕ) (hne : tower_grads ≠ [])
    (hlen : ∀ l ∈ tower_grads, l.length = n)
    (hgood : ∀ row ∈ zipStar tower_grads, goodRow row) :
    average_gradients tower_grads = .ok ((zipStar tower_grads).map rowMeanSpec) ∧
    ((zipStar tower_grads).map rowMeanSpec).length = n ∧
    ∀ i, i < n → (zipStar tower_grads).getD i []
      = tower_grads.map (fun l => l.getD i default) := by
  refine ⟨mapM_averageOne _ hgood, ?_, zipStar_getD n tower_grads hne hlen⟩
  rw [List.length_map]
  exact zipStar_length n tower_grads hne hlen


/-- Witness for `average_gradients_amended`: two devices and two variable
positions; the present position averages to `(1+5)/2 = 3` paired with the
first device's variable, the absent position passes through the first
device's `(None, variable)` pair. -/
theorem average_gradients_amended_witness :
    average_gradients
      [[(some [1], ⟨"a", 0, [0]⟩), (none, ⟨"c", 2, [0]⟩)],
       [(some [5], ⟨"b", 1, [0]⟩), (none, ⟨"d", 3, [0]⟩)]] =
      .ok [(some [3], ⟨"a", 0, [0]⟩), (none, ⟨"c", 2, [0]⟩)] := by
  have h := average_gradients_amended
    [[(some [1], ⟨"a", 0, [0]⟩), (none, ⟨"c", 2, [0]⟩)],
     [(some [5], ⟨"b", 1, [0]⟩), (none, ⟨"d", 3, [0]⟩)]] 2
    (by decide) (by decide)
    (by
      intro row hrow
      simp [zipStar] at hrow
      rcases hrow with h | h
      · subst h
        refine ⟨by decide, ?_⟩
        intro t0 ht
        simp only [List.head?_cons, Option.map_some] at ht
        have ht0 : t0 = ([1] : Tensor) := by
          injection ht with h1
          injection h1 with h2
          exact h2.symm
        subst ht0
        intro q hq
        simp only [List.mem_cons, List.not_mem_nil, or_false] at hq
        rcases hq with h | h
        · subst h
          exact ⟨[1], rfl, rfl⟩
        · subst h
          exact ⟨[5], rfl, rfl⟩
      · subst h
        refine ⟨by decide, ?_⟩
        intro t0 ht
        simp at ht)
  rw [h.1]
  norm_num [zipStar, rowMeanSpec, tensorMeanSpec, List.filterMap_cons]
  have hr : List.range 1 = [0] := rfl
  rw [hr, List.map_cons, List.map_nil]
  norm_num

lemma assocGet_cons {κ β : Type} [DecidableEq κ] (p : κ × β) (rest : List (κ × β)) (k : κ) :
    assocGet (p :: rest) k = if p.1 = k then some p.2 else assocGet rest k := by
  by_cases h : p.1 = k
  · simp [assocGet, List.find?_cons_of_pos, h]
  · simp only [assocGet, if_neg h]
    rw [List.find?_cons_of_neg]
    simp [h]

lemma assocMem_cons {κ β : Type} [DecidableEq κ] (p : κ × β) (rest : List (κ × β)) (k : κ) :
    assocMem (p :: rest) k = (decide (p.1 = k) || assocMem rest k) := by
  simp [assocMem]

lemma assocMem_tail {κ β : Type} [DecidableEq κ] {p : κ × β} {rest : List (κ × β)} {k : κ}
    (h : assocMem (p :: rest) k = true) (hp : ¬ p.1 = k) : assocMem rest k = true := by
  rw [assocMem_cons] at h
  simpa [hp] using h

lemma assocMem_cons_false {κ β : Type} [DecidableEq κ] {p : κ × β} {rest : List (κ × β)}
    {k : κ} (h : ¬ assocMem (p :: rest) k = true) :
    ¬ p.1 = k ∧ ¬ assocMem rest k = true := by
  rw [assocMem_cons] at h
  refine ⟨fun he => h (by simp [he]), fun hr => h (by simp [hr])⟩

lemma assocGet_map_set {κ β : Type} [DecidableEq κ] (k : κ) (v : β) :
    ∀ m : List (κ × β), assocMem m k = true →
      assocGet (m.map (fun p => if p.1 = k then (k, v) else p)) k = some v := by
  intro m
  induction m with
  | nil => intro h; simp [assocMem] at h
  | cons p rest ih =>
    intro h
    rw [List.map_cons]
    by_cases hp : p.1 = k
    · rw [if_pos hp, assocGet_cons]
      simp
    · rw [if_neg hp, assocGet_cons, if_neg hp]
      exact ih (assocMem_tail h hp)

lemma assocGet_append_single {κ β : Type} [DecidableEq κ] (k : κ) (v : β) :
    ∀ m : List (κ × β), ¬ assocMem m k = true →
      assocGet (m ++ [(k, v)]) k = some v := by
  intro m
  induction m with
  | nil => intro _; simp [assocGet_cons]
  | cons p rest ih =>
    intro hmem
    obtain ⟨hp, hr⟩ := assocMem_cons_false hmem
    rw [List.cons_append, assocGet_cons, if_neg hp]
    exact ih hr

lemma assocGet_set_self {κ β : Type} [DecidableEq κ] (m : List (κ × β)) (k : κ) (v : β) :
    assocGet (assocSet m k v) k = some v := by
  unfold assocSet
  by_cases hmem : assocMem m k = true
  · rw [if_pos hmem]
    exact assocGet_map_set k v m hmem
  · rw [if_neg hmem]
    exact assocGet_append_single k v m hmem

lemma assocGet_map_set_ne {κ β : Type} [DecidableEq κ] (k k' : κ) (v : β) (h : ¬ k = k') :
    ∀ m : List (κ × β),
      assocGet (m.map (fun p => if p.1 = k' then (k', v) else p)) k = assocGet m k := by
  intro m
  induction m with
  | nil => rfl
  | cons p rest ih =>
    rw [List.map_cons, assocGet_cons]
    by_cases hp : p.1 = k'
    · rw [if_pos hp]
      have h1 : ¬ ((k', v).1 = k) := fun he => h he.symm
      have h2 : ¬ (p.1 = k) := by rw [hp]; exact fun he => h he.symm
      rw [if_neg h1, assocGet_cons, if_neg h2, ih]
    · rw [if_neg hp, assocGet_cons]
      by_cases hpk : p.1 = k
      · rw [if_pos hpk, if_pos hpk]
      · rw [if_neg hpk, if_neg hpk, ih]

lemma assocGet_append_single_ne {κ β : Type} [DecidableEq κ] (k k' : κ) (v : β)
    (h : ¬ k = k') :
    ∀ m : List (κ × β), assocGet (m ++ [(k', v)]) k = assocGet m k := by
  intro m
  induction m with
  | nil =>
    rw [List.nil_append, assocGet_cons, if_neg (fun he => h he.symm)]
  | cons p rest ih =>
    rw [List.cons_append, assocGet_cons, assocGet_cons, ih]

lemma assocGet_set_ne {κ β : Type} [DecidableEq κ] (m : List (κ × β)) (k k' : κ) (v : β)
    (h : ¬ k = k') : assocGet (assocSet m k' v) k = assocGet m k := by
  unfold assocSet
  by_cases hmem : assocMem m k' = true
  · rw [if_pos hmem]
    exact assocGet_map_set_ne k k' v h m
  · rw [if_neg hmem]
    exact assocGet_append_single_ne k k' v h m

lemma assocMem_map_set {κ β : Type} [DecidableEq κ] (k k' : κ) (v : β) (h : ¬ k = k') :
    ∀ m : List (κ × β),
      assocMem (m.map (fun p => if p.1 = k' then (k', v) else p)) k = assocMem m k := by
  intro m
  induction m with
  | nil => rfl
  | cons p rest ih =>
    rw [List.map_cons, assocMem_cons, assocMem_cons, ih]
    by_cases hp : p.1 = k'
    · rw [if_pos hp]
      have h1 : ¬ ((k', v).1 = k) := fun he => h he.symm
      have h2 : ¬ (p.1 = k) := by rw [hp]; exact fun he => h he.symm
      simp [h1, h2]
    · rw [if_neg hp]

lemma assocMem_append_single {κ β : Type} [DecidableEq κ] (k k' : κ) (v : β)
    (h : ¬ k = k') :
    ∀ m : List (κ × β), assocMem (m ++ [(k', v)]) k = assocMem m k := by
  intro m
  induction m with
  | nil =>
    rw [List.nil_append, assocMem_cons]
    have h1 : ¬ ((k', v).1 = k) := fun he => h he.symm
    simp [h1, assocMem]
  | cons p rest ih =>
    rw [List.cons_append, assocMem_cons, assocMem_cons, ih]

lemma assocMem_set_ne {κ β : Type} [DecidableEq κ] (m : List (κ × β)) (k k' : κ) (v : β)
    (h : ¬ k = k') : assocMem (assocSet m k' v) k = assocMem m k := by
  unfold assocSet
  by_cases hmem : assocMem m k' = true
  · rw [if_pos hmem]
    exact assocMem_map_set k k' v h m
  · rw [if_neg hmem]
    exact assocMem_append_single k k' v h m

lemma assocSet_keys_fresh {κ β : Type} [DecidableEq κ] (m : List (κ × β)) (k : κ) (v : β)
    (h : ¬ assocMem m k = true) :
    (assocSet m k v).map Prod.fst = m.map Prod.fst ++ [k] := by
  unfold assocSet
  rw [if_neg h]
  simp

lemma assocGet_nil {κ β : Type} [DecidableEq κ] (k : κ) :
    assocGet ([] : List (κ × β)) k = none := rfl

lemma assocMem_nil {κ β : Type} [DecidableEq κ] (k : κ) :
    assocMem ([] : List (κ × β)) k = false := rfl

lemma assocSet_nil {κ β : Type} [DecidableEq κ] (k : κ) (v : β) :
    assocSet ([] : List (κ × β)) k v = [(k, v)] := rfl

lemma autoName_nil (fname : String) : autoName [] fname = fname := by
  simp [autoName]

/-- C8 (amended): recording through `_func_wrapper` normalizes `ksize` via
`_val2list` exactly for the pooling allow-list (`avg_pool`, `max_pool`,
`max_pool_with_argmax`), but normalizes `strides` for every recorded
operation; `_val2list` turns a bare int `v` into `[1, v, v, 1]` and a
2-element list `[a, b]` into `[1, a, b, 1]`, leaving any other list
unchanged. -/
theorem recorder_shape_normalization (funcName : String) (layerArg : Option String)
    (kw : Kwargs) (hname : ¬ assocMem kw "name" = true) :
    assocGet (((ConvNet.init none).recordCall funcName layerArg kw).storedKwargs
        layerArg funcName) "ksize"
      = (if funcName ∈ specOps then (assocGet kw "ksize").map _val2list
         else assocGet kw "ksize") ∧
    assocGet (((ConvNet.init none).recordCall funcName layerArg kw).storedKwargs
        layerArg funcName) "strides"
      = (assocGet kw "strides").map _val2list ∧
    (∀ v : ℤ, _val2list (.int v) = .intList [1, v, v, 1]) ∧
    (∀ a b : ℤ, _val2list (.intList [a, b]) = .intList [1, a, b, 1]) ∧
    (∀ l : List ℤ, ¬ l.length = 2 → _val2list (.intList l) = .intList l) := by
  have hlayer : (layerArg.orElse (fun _ => (none : Option String))) = layerArg := by
    cases layerArg <;> rfl
  have hm1 : assocMem (assocSet kw "func_name" (Val.str funcName)) "name" = false := by
    rw [assocMem_set_ne kw "name" "func_name" _ (by decide)]
    exact Bool.not_eq_true _ |>.mp hname
  have hget_name3 :
      assocGet (assocSet (assocSet kw "func_name" (Val.str funcName)) "name"
        (Val.str funcName)) "name" = some (Val.str funcName) :=
    assocGet_set_self _ _ _
  have hget_ks3 :
      assocGet (assocSet (assocSet kw "func_name" (Val.str funcName)) "name"
        (Val.str funcName)) "ksize" = assocGet kw "ksize" := by
    rw [assocGet_set_ne _ _ _ _ (by decide), assocGet_set_ne _ _ _ _ (by decide)]
  have hget_st3 :
      assocGet (assocSet (assocSet kw "func_name" (Val.str funcName)) "name"
        (Val.str funcName)) "strides" = assocGet kw "strides" := by
    rw [assocGet_set_ne _ _ _ _ (by decide), assocGet_set_ne _ _ _ _ (by decide)]
  simp only [ConvNet.recordCall, ConvNet.storedKwargs, ConvNet.init, hlayer,
    assocGet_nil, assocMem_nil, assocSet_nil, Bool.false_eq_true, if_false,
    assocGet_cons, if_pos rfl, Option.getD_some, Option.getD_none, ite_true, ite_false,
    List.map_nil, autoName_nil, hm1]
  have hKS : ∀ (m : Kwargs) (v : Val),
      assocGet (assocSet m "strides" v) "ksize" = assocGet m "ksize" :=
    fun m v => assocGet_set_ne m _ _ v (by decide)
  have hSK : ∀ (m : Kwargs) (v : Val),
      assocGet (assocSet m "ksize" v) "strides" = assocGet m "strides" :=
    fun m v => assocGet_set_ne m _ _ v (by decide)
  have hNK : ∀ (m : Kwargs) (v : Val),
      assocGet (assocSet m "ksize" v) "name" = assocGet m "name" :=
    fun m v => assocGet_set_ne m _ _ v (by decide)
  have hNS : ∀ (m : Kwargs) (v : Val),
      assocGet (assocSet m "strides" v) "name" = assocGet m "name" :=
    fun m v => assocGet_set_ne m _ _ v (by decide)
  have finish3 : (∀ v : ℤ, _val2list (.int v) = .intList [1, v, v, 1]) ∧
      (∀ a b : ℤ, _val2list (.intList [a, b]) = .intList [1, a, b, 1]) ∧
      (∀ l : List ℤ, ¬ l.length = 2 → _val2list (.intList l) = .intList l) := by
    refine ⟨fun v => rfl, fun a b => rfl, fun l hl => ?_⟩
    simp [_val2list, hl]
  rw [hget_ks3]
  by_cases hspec : funcName ∈ specOps
  · simp only [hspec, if_true, ite_true]
    cases hks : assocGet kw "ksize" with
    | none =>
      rw [hget_st3]
      cases hstr : assocGet kw "strides" with
      | none =>
        refine ⟨?_, ?_, finish3⟩ <;>
          simp [assocSet_nil, assocGet_set_self, assocGet_cons, hget_name3,
            hget_ks3, hget_st3, hks, hstr]
      | some w =>
        refine ⟨?_, ?_, finish3⟩ <;>
          simp [assocSet_nil, assocGet_set_self, assocGet_cons, hget_name3, hNS,
            hKS, hget_ks3, hget_st3, hks, hstr]
    | some v =>
      rw [hSK, hget_st3]
      cases hstr : assocGet kw "strides" with
      | none =>
        refine ⟨?_, ?_, finish3⟩ <;>
          simp [assocSet_nil, assocGet_set_self, assocGet_cons, hget_name3, hNK,
            hSK, hget_ks3, hget_st3, hks, hstr]
      | some w =>
        refine ⟨?_, ?_, finish3⟩ <;>
          simp [assocSet_nil, assocGet_set_self, assocGet_cons, hget_name3, hNK,
            hNS, hKS, hSK, hget_ks3, hget_st3, hks, hstr]
  · simp only [hspec, if_false, ite_false]
    rw [hget_st3]
    cases hstr : assocGet kw "strides" with
    | none =>
      refine ⟨?_, ?_, finish3⟩ <;>
        simp [assocSet_nil, assocGet_set_self, assocGet_cons, hget_name3,
          hget_ks3, hget_st3, hstr, hspec]
    | some w =>
      refine ⟨?_, ?_, finish3⟩ <;>
        simp [assocSet_nil, assocGet_set_self, assocGet_cons, hget_name3, hNS,
          hKS, hget_ks3, hget_st3, hstr, hspec]


/-- Witness for `recorder_shape_normalization`: a `max_pool` recording with
`ksize=3` and `strides=[1, 2]` stores `ksize=[1, 3, 3, 1]` and
`strides=[1, 1, 2, 1]`. -/
theorem recorder_shape_normalization_witness :
    assocGet (((ConvNet.init none).recordCall "max_pool" (some "p1")
        [("ksize", .int 3), ("strides", .intList [1, 2])]).storedKwargs
        (some "p1") "max_pool") "ksize" = some (.intList [1, 3, 3, 1]) ∧
    assocGet (((ConvNet.init none).recordCall "max_pool" (some "p1")
        [("ksize", .int 3), ("strides", .intList [1, 2])]).storedKwargs
        (some "p1") "max_pool") "strides" = some (.intList [1, 1, 2, 1]) := by
  have h := recorder_shape_normalization "max_pool" (some "p1")
    [("ksize", .int 3), ("strides", .intList [1, 2])] (by decide)
  constructor
  · rw [h.1]
    decide
  · rw [h.2.1]
    decide

/-- C8 (counterexample): `conv` is not in the pooling allow-list, yet a bare
integer `strides=2` recorded for it is normalized to `[1, 2, 2, 1]` — the
wrapper normalizes `strides` for every operation, only `ksize` is restricted
to the allow-list. -/
theorem conv_strides_normalized_outside_allowlist :
    assocGet
        (((ConvNet.init none).recordCall "conv" (some "c1")
            [("strides", .int 2)]).storedKwargs (some "c1") "conv")
        "strides" = some (.intList [1, 2, 2, 1]) ∧
    (Val.intList [1, 2, 2, 1]) ≠ .int 2 ∧ "conv" ∉ specOps := by
  refine ⟨by decide, by decide, by decide⟩

lemma valFrom_append_singleton (a : ℕ) (l : List Char) (c : Char) :
    valFrom a (l ++ [c]) = 10 * valFrom a l + (c.toNat - 48) := by
  simp [valFrom]

lemma toDigitsCore_shift (fuel : ℕ) : ∀ (n : ℕ) (ds : List Char),
    Nat.toDigitsCore 10 fuel n ds = Nat.toDigitsCore 10 fuel n [] ++ ds := by
  induction fuel with
  | zero => intro n ds; simp [Nat.toDigitsCore]
  | succ fuel ih =>
    intro n ds
    simp only [Nat.toDigitsCore]
    by_cases h : n / 10 = 0
    · simp [h]
    · simp only [h, if_false]
      rw [ih (n / 10) [Nat.digitChar (n % 10)], ih (n / 10) (Nat.digitChar (n % 10) :: ds)]
      simp

lemma digitChar_sub (m : ℕ) (h : m < 10) : (Nat.digitChar m).toNat - 48 = m := by
  have : ∀ x, x < 10 → (Nat.digitChar x).toNat - 48 = x := by decide
  exact this m h

lemma valFrom_toDigitsCore (fuel : ℕ) : ∀ n, n < fuel → ∀ a,
    valFrom a (Nat.toDigitsCore 10 fuel n []) =
      a * 10 ^ (Nat.toDigitsCore 10 fuel n []).length + n := by
  induction fuel with
  | zero => intro n h; omega
  | succ fuel ih =>
    intro n hn a
    simp only [Nat.toDigitsCore]
    by_cases h : n / 10 = 0
    · have hn10 : n < 10 := by omega
      have hmod : n % 10 = n := Nat.mod_eq_of_lt hn10
      simp only [h, if_true, ite_true]
      show valFrom a [Nat.digitChar (n % 10)] = a * 10 ^ ([Nat.digitChar (n % 10)]).length + n
      simp [valFrom, hmod, digitChar_sub n hn10]
      ring
    · have hge : 10 ≤ n := by
        by_contra hlt
        exact h (Nat.div_eq_of_lt (by omega))
      have hdiv_lt : n / 10 < fuel := by
        have h1 : n / 10 < n := Nat.div_lt_self (by omega) (by norm_num)
        omega
      simp only [h, if_false]
      rw [toDigitsCore_shift fuel (n / 10) [Nat.digitChar (n % 10)]]
      rw [valFrom_append_singleton]
      rw [ih (n / 10) hdiv_lt a]
      rw [digitChar_sub (n % 10) (Nat.mod_lt _ (by norm_num))]
      rw [List.length_append, List.length_singleton]
      have hpow : (10 : ℕ) ^ ((Nat.toDigitsCore 10 fuel (n / 10) []).length + 1)
          = 10 ^ (Nat.toDigitsCore 10 fuel (n / 10) []).length * 10 := pow_succ 10 _
      rw [hpow]
      have hdm : 10 * (n / 10) + n % 10 = n := Nat.div_add_mod n 10
      ring_nf
      omega

lemma valFrom_toDigits (n : ℕ) : valFrom 0 (Nat.toDigits 10 n) = n := by
  have := valFrom_toDigitsCore (n + 1) n (by omega) 0
  simpa [Nat.toDigits] using this

lemma natRepr_injective : Function.Injective Nat.repr := by
  intro m n h
  have hd : Nat.toDigits 10 m = Nat.toDigits 10 n := by
    have hdata := congrArg String.data h
    simpa [Nat.repr] using hdata
  have := congrArg (valFrom 0) hd
  rwa [valFrom_toDigits, valFrom_toDigits] at this


lemma candName_injective (fname : String) : Function.Injective (candName fname) := by
  intro i j h
  apply natRepr_injective
  apply String.ext
  have hd := congrArg String.data h
  simp only [candName, String.data_append] at hd
  exact List.append_cancel_left hd

lemma candName_ne_base (fname : String) (i : ℕ) : ¬ candName fname i = fname := by
  intro h
  have hd := congrArg (fun s => s.data.length) h
  simp [candName, String.data_append] at hd

lemma firstFreeAux_eq (E : List String) (fname : String) (j : ℕ) :
    ∀ (fuel i : ℕ), i ≤ j → j < i + fuel →
    (∀ m, i ≤ m → m < j → candName fname m ∈ E) →
    ¬ candName fname j ∈ E →
    firstFreeAux E fname fuel i = j := by
  intro fuel
  induction fuel with
  | zero => intro i h1 h2; omega
  | succ fuel ih =>
    intro i h1 h2 hmem hfree
    by_cases hij : i = j
    · subst hij
      simp only [firstFreeAux, if_neg hfree]
    · have hmemi : candName fname i ∈ E := hmem i le_rfl (by omega)
      simp only [firstFreeAux, if_pos hmemi]
      exact ih (i + 1) (by omega) (by omega) (fun m hm1 hm2 => hmem m (by omega) hm2) hfree

lemma claimedAutoNames_length (fname : String) (k : ℕ) :
    (claimedAutoNames fname k).length = k := by
  simp [claimedAutoNames]

lemma claimedAutoNames_succ (fname : String) (k : ℕ) :
    claimedAutoNames fname (k + 1) =
      claimedAutoNames fname k ++ [if k = 0 then fname else candName fname k] := by
  simp [claimedAutoNames, List.range_succ]

lemma cand_mem_claimedAutoNames (fname : String) (m k : ℕ) :
    candName fname m ∈ claimedAutoNames fname k ↔ (1 ≤ m ∧ m < k) := by
  constructor
  · intro h
    obtain ⟨j, hj, he⟩ := List.mem_map.mp h
    rw [List.mem_range] at hj
    by_cases h0 : j = 0
    · rw [h0, if_pos rfl] at he
      exact absurd he.symm (candName_ne_base fname m)
    · rw [if_neg h0] at he
      have := candName_injective fname he
      omega
  · intro ⟨h1, h2⟩
    apply List.mem_map.mpr
    refine ⟨m, List.mem_range.mpr h2, ?_⟩
    rw [if_neg (by omega)]

lemma base_mem_claimedAutoNames (fname : String) (k : ℕ) (hk : 1 ≤ k) :
    fname ∈ claimedAutoNames fname k := by
  apply List.mem_map.mpr
  exact ⟨0, List.mem_range.mpr (by omega), by rw [if_pos rfl]⟩

lemma base_not_mem_claimedAutoNames_zero (fname : String) :
    ¬ fname ∈ claimedAutoNames fname 0 := by
  simp [claimedAutoNames]

lemma autoName_claimed (fname : String) (k : ℕ) :
    autoName (claimedAutoNames fname k) fname
      = (if k = 0 then fname else candName fname k) := by
  cases k with
  | zero =>
    unfold autoName
    rw [if_neg (base_not_mem_claimedAutoNames_zero fname), if_pos rfl]
  | succ k =>
    rw [if_neg (by omega)]
    unfold autoName
    rw [if_pos (base_mem_claimedAutoNames fname (k + 1) (by omega))]
    congr 1
    rw [claimedAutoNames_length]
    apply firstFreeAux_eq
    · omega
    · omega
    · intro m hm1 hm2
      exact (cand_mem_claimedAutoNames fname m (k + 1)).mpr ⟨hm1, by omega⟩
    · intro hmem
      have := (cand_mem_claimedAutoNames fname (k + 1) (k + 1)).mp hmem
      omega

lemma claimed_next_fresh (fname : String) (k : ℕ) :
    ¬ (if k = 0 then fname else candName fname k) ∈ claimedAutoNames fname k := by
  cases k with
  | zero => simpa using base_not_mem_claimedAutoNames_zero fname
  | succ k =>
    rw [if_neg (by omega)]
    intro hmem
    have := (cand_mem_claimedAutoNames fname (k + 1) (k + 1)).mp hmem
    omega

lemma claimedAutoNames_nodup (fname : String) (k : ℕ) :
    (claimedAutoNames fname k).Nodup := by
  induction k with
  | zero => simp [claimedAutoNames]
  | succ k ih =>
    rw [claimedAutoNames_succ]
    apply List.Nodup.append ih (List.nodup_singleton _)
    intro x hx hy
    rw [List.mem_singleton] at hy
    subst hy
    exact claimed_next_fresh fname k hx


lemma assocMem_eq_mem_keys {κ β : Type} [DecidableEq κ] (m : List (κ × β)) (k : κ) :
    assocMem m k = true ↔ k ∈ m.map Prod.fst := by
  rw [assocMem, List.any_eq_true, List.mem_map]
  constructor
  · rintro ⟨p, hp, he⟩
    exact ⟨p, hp, by simpa using he⟩
  · rintro ⟨p, hp, he⟩
    exact ⟨p, hp, by simpa using he⟩

lemma recordCall_unnamed_step (fname : String) (j : ℕ)
    (entries : List (String × Kwargs))
    (hkeys : entries.map Prod.fst = claimedAutoNames fname j) :
    ConvNet.recordCall { _defaults := [], _layer := none, params := [(none, entries)] }
        fname none []
      = { _defaults := [], _layer := none,
          params := [(none,
            assocSet entries (if j = 0 then fname else candName fname j)
              [("func_name", .str fname),
               ("name", .str (if j = 0 then fname else candName fname j))])] } := by
  have hauto : autoName (entries.map Prod.fst) fname
      = (if j = 0 then fname else candName fname j) := by
    rw [hkeys]; exact autoName_claimed fname j
  have horelse : ((none : Option String).orElse fun _ => none) = none := rfl
  have hmem1 : assocMem [((none : Option String), entries)] none = true := by
    simp [assocMem]
  have hget1 : assocGet [((none : Option String), entries)] none = some entries := by
    rw [assocGet_cons, if_pos rfl]
  have hmem2 : assocMem [("func_name", Val.str fname)] "name" = false := by
    simp [assocMem]
  have hset : assocSet [("func_name", Val.str fname)] "name"
      (Val.str (if j = 0 then fname else candName fname j))
      = [("func_name", Val.str fname),
         ("name", Val.str (if j = 0 then fname else candName fname j))] := by
    unfold assocSet
    rw [hmem2]
    simp
  have hks : assocGet [("func_name", Val.str fname),
      ("name", Val.str (if j = 0 then fname else candName fname j))] "ksize" = none := by
    rw [assocGet_cons, if_neg (by simp), assocGet_cons, if_neg (by simp)]
    rfl
  have hstr : assocGet [("func_name", Val.str fname),
      ("name", Val.str (if j = 0 then fname else candName fname j))] "strides" = none := by
    rw [assocGet_cons, if_neg (by simp), assocGet_cons, if_neg (by simp)]
    rfl
  have hnmget : assocGet [("func_name", Val.str fname),
      ("name", Val.str (if j = 0 then fname else candName fname j))] "name"
      = some (Val.str (if j = 0 then fname else candName fname j)) := by
    rw [assocGet_cons, if_neg (by simp), assocGet_cons, if_pos rfl]
  have houter : ∀ X : List (String × Kwargs),
      assocSet [((none : Option String), entries)] none X = [(none, X)] := by
    intro X
    unfold assocSet
    rw [hmem1]
    simp
  simp only [ConvNet.recordCall, assocSet_nil, assocGet_nil, assocMem_nil, horelse,
    hmem1, if_true, hget1, Option.getD_some, hmem2, Bool.false_eq_true, if_false,
    hauto, hset, hks, hstr, hnmget, ite_self, houter]


lemma recordUnnamed_keys (fname : String) :
    ∀ (k j : ℕ) (entries : List (String × Kwargs)),
      entries.map Prod.fst = claimedAutoNames fname j →
      ∃ entries2,
        ConvNet.recordUnnamed
            { _defaults := [], _layer := none, params := [(none, entries)] } fname k
          = { _defaults := [], _layer := none, params := [(none, entries2)] } ∧
        entries2.map Prod.fst = claimedAutoNames fname (j + k) := by
  intro k
  induction k with
  | zero =>
    intro j entries h
    exact ⟨entries, rfl, by simpa using h⟩
  | succ k ih =>
    intro j entries h
    rw [ConvNet.recordUnnamed]
    rw [recordCall_unnamed_step fname j entries h]
    have hfresh : ¬ assocMem entries (if j = 0 then fname else candName fname j) = true := by
      rw [assocMem_eq_mem_keys, h]
      exact claimed_next_fresh fname j
    have hkeys2 : (assocSet entries (if j = 0 then fname else candName fname j)
        [("func_name", Val.str fname),
         ("name", Val.str (if j = 0 then fname else candName fname j))]).map Prod.fst
        = claimedAutoNames fname (j + 1) := by
      rw [assocSet_keys_fresh _ _ _ hfresh, h, ← claimedAutoNames_succ]
    obtain ⟨e2, he2, hk2⟩ := ih (j + 1) _ hkeys2
    refine ⟨e2, he2, ?_⟩
    rwa [show j + 1 + k = j + (k + 1) by omega] at hk2

/-- C7: recording `k` operations of the same kind, in the same layer, with
no explicit name, assigns the keys base-name, `<op>_1`, `<op>_2`, ...,
`<op>_(k-1)` in order (first unnamed recording gets the bare operation name,
the i-th thereafter gets suffix `_i`), and these keys are pairwise
distinct. -/
theorem recorder_auto_naming (fname : String) (k : ℕ) :
    ConvNet.layerKeys ((ConvNet.init none).recordUnnamed fname k) none
      = claimedAutoNames fname k ∧
    (claimedAutoNames fname k).Nodup ∧
    claimedAutoNames fname 3 = [fname, candName fname 1, candName fname 2] := by
  refine ⟨?_, claimedAutoNames_nodup fname k, rfl⟩
  cases k with
  | zero => rfl
  | succ k =>
    rw [ConvNet.recordUnnamed]
    have hbridge : (ConvNet.init none).recordCall fname none []
        = ConvNet.recordCall { _defaults := [], _layer := none, params := [(none, [])] }
            fname none [] := rfl
    rw [hbridge, recordCall_unnamed_step fname 0 [] rfl]
    obtain ⟨e2, he2, hk2⟩ := recordUnnamed_keys fname k 1
      (assocSet [] (if 0 = 0 then fname else candName fname 0)
        [("func_name", Val.str fname),
         ("name", Val.str (if 0 = 0 then fname else candName fname 0))])
      (by
        rw [assocSet_nil]
        simp only [List.map_cons, List.map_nil]
        rw [claimedAutoNames_succ]
        rfl)
    rw [he2]
    simp only [ConvNet.layerKeys, assocGet_cons, if_pos rfl, Option.getD_some]
    rwa [show 1 + k = k + 1 by omega] at hk2


end TFUtils
